import Mathlib

/-!
Shallow embedding of the NER tutorial notebook (`Tutorials/Tutorial_NER.ipynb`).

Tensors are nested lists of reals: a `[N, T]` matrix is `List (List ℝ)` and a
`[N, T, C]` tensor is `List (List (List ℝ))`.  The TensorFlow operations used
by the notebook (`tf.one_hot`, `tf.nn.softmax_cross_entropy_with_logits_v2`,
`tf.reduce_mean`, elementwise `*`, `tf.layers.conv1d` with `'same'` padding,
`tf.nn.relu`, `tf.layers.dense`, `tf.nn.dropout` with noise shape `(N, 1, C)`,
`tf.argmax`) are embedded as functions on these lists.
-/

namespace NerTutorial


/-- Dot product of two vectors (`zipWith` truncates to the shorter one,
matching shapes are the caller's obligation as in TensorFlow). -/
def dot (a b : List ℝ) : ℝ := (List.zipWith (· * ·) a b).sum

/-- `log(sum(exp(z_j)))`, the normaliser of the softmax over logits `zs`. -/
noncomputable def logSumExp (zs : List ℝ) : ℝ := Real.log ((zs.map Real.exp).sum)

/-- `tf.one_hot(i, depth)`: the length-`depth` vector that is 1 at index `i`
and 0 elsewhere. -/
def oneHot (depth : ℕ) (i : ℕ) : List ℝ :=
  (List.range depth).map (fun j => if j = i then 1 else 0)

/-- `tf.nn.softmax_cross_entropy_with_logits_v2(labels=p, logits=z)` for one
token position: `-∑_j p_j · log softmax(z)_j = ∑_j p_j · (logSumExp z - z_j)`. -/
noncomputable def softmaxCrossEntropy (p z : List ℝ) : ℝ :=
  (List.zipWith (fun pj zj => pj * (logSumExp z - zj)) p z).sum

/-- Per-token cross-entropy of one sentence: logit row `[T, n_tags]` against
an integer label row `[T]`, one-hot encoded with depth `nTags`. -/
noncomputable def ceRow (nTags : ℕ) (logitRow : List (List ℝ)) (idxRow : List ℕ) :
    List ℝ :=
  List.zipWith (fun z i => softmaxCrossEntropy (oneHot nTags i) z) logitRow idxRow

/-- The `[N, T]` tensor of per-token cross-entropies
(`tf.nn.softmax_cross_entropy_with_logits_v2` applied to the whole batch). -/
noncomputable def ceTensor (logits : List (List (List ℝ)))
    (labelIdx : List (List ℕ)) (nTags : ℕ) : List (List ℝ) :=
  List.zipWith (ceRow nTags) logits labelIdx

/-- Elementwise product of two `[N, T]` tensors (`loss_tensor *= mask`). -/
def hadamard (a b : List (List ℝ)) : List (List ℝ) :=
  List.zipWith (List.zipWith (· * ·)) a b

/-- Sum of all entries of a `[N, T]` tensor. -/
def matSum (m : List (List ℝ)) : ℝ := (m.map List.sum).sum

/-- Number of entries of a `[N, T]` tensor (`N*T` for a rectangular one). -/
def numEntries (m : List (List ℝ)) : ℕ := (m.map List.length).sum

/-- `tf.reduce_mean`: sum of all entries divided by the number of ALL entries
(for an empty tensor this is `0 / 0 = 0` in `ℝ`). -/
noncomputable def reduceMean (m : List (List ℝ)) : ℝ := matSum m / (numEntries m : ℝ)

/-- The notebook's `masked_cross_entropy(logits, label_indices, number_of_tags,
mask)`: one-hot encode the labels, take per-token softmax cross-entropy,
multiply elementwise by the mask, and `tf.reduce_mean` the result. -/
noncomputable def masked_cross_entropy (logits : List (List (List ℝ)))
    (label_indices : List (List ℕ)) (number_of_tags : ℕ)
    (mask : List (List ℝ)) : ℝ :=
  reduceMean (hadamard (ceTensor logits label_indices number_of_tags) mask)

/-- The all-zeros `[N, T]` mask. -/
def zerosMat (N T : ℕ) : List (List ℝ) :=
  List.replicate N (List.replicate T (0 : ℝ))

/-! ### The embedding initializer of `get_embeddings`

The notebook builds the embedding matrix with
`tf.random_normal(shape=[vocabulary_size, emb_dim], mean=0.0, stddev = 1.0 / emb_dim)`;
the in-code comment above that line demands that the **variance** of the
samples be `1 / emb_dim`. -/

/-- The `mean` argument `get_embeddings` passes to `tf.random_normal`. -/
def get_embeddings_init_mean : ℝ := 0

/-- The `stddev` argument `get_embeddings` passes to `tf.random_normal`:
`1.0 / emb_dim`. -/
noncomputable def get_embeddings_init_stddev (emb_dim : ℝ) : ℝ := 1 / emb_dim

/-! ### The network layers -/

/-- Weights of one `tf.layers.conv1d(..., filters, kernel_size, padding='same')`
layer: `kernel` has shape `[kernel_size, in_channels, filters]`. -/
structure Conv1DLayer where
  kernel : List (List (List ℝ))
  bias : List ℝ
  filters : ℕ

/-- Weights of the final `tf.layers.dense` projection:
`weight` has shape `[in_units, n_tags]`. -/
structure DenseLayer where
  weight : List (List ℝ)
  bias : List ℝ

/-- The zero channel vector used for `'same'` padding. -/
def zeroVec (c : ℕ) : List ℝ := List.replicate c 0

/-- Reading position `i` of a sequence `x : [T, C]` padded on the left with
`padLeft` zero vectors (and zero vectors past the right end). -/
def paddedRow (x : List (List ℝ)) (c padLeft i : ℕ) : List ℝ :=
  if i < padLeft then zeroVec c else x.getD (i - padLeft) (zeroVec c)

/-- Output channel `j` at position `t` of a 1-D convolution with `'same'`
padding: bias plus the sum over kernel taps `d < k` of the dot product of the
padded input at `t + d` with column `j` of kernel slice `d`.  With stride 1,
`'same'` padding puts `(k-1)/2` zero vectors on the left. -/
def convAt (L : Conv1DLayer) (k cin : ℕ) (x : List (List ℝ)) (t j : ℕ) : ℝ :=
  L.bias.getD j 0 +
    ((List.range k).map (fun d =>
      dot (paddedRow x cin ((k - 1) / 2) (t + d))
        ((L.kernel.getD d []).map (fun wrow => wrow.getD j 0)))).sum

/-- `tf.layers.conv1d(x, filters, kernel_size=k, padding='same')` on one
sequence `x : [T, C]`: one output position per input position. -/
def conv1dSame (L : Conv1DLayer) (k cin : ℕ) (x : List (List ℝ)) :
    List (List ℝ) :=
  (List.range x.length).map (fun t => (List.range L.filters).map (convAt L k cin x t))

/-- `tf.nn.relu`. -/
def relu (x : ℝ) : ℝ := max x 0

/-- `tf.nn.relu` applied entrywise to a sequence of channel vectors. -/
def reluSeq (x : List (List ℝ)) : List (List ℝ) := x.map (fun r => r.map relu)

/-- The notebook's `conv_net(units, n_hidden_list, cnn_filter_width,
activation=tf.nn.relu)`: for each entry of `n_hidden_list` (here: each layer
in `layers`), one `'same'`-padded 1-D convolution followed by the
rectified-linear activation.  `cin` is the current channel count. -/
def conv_net : List Conv1DLayer → ℕ → List (List ℝ) → ℕ → List (List ℝ)
  | [], _, units, _ => units
  | L :: rest, k, units, cin =>
      conv_net rest k (reluSeq (conv1dSame L k cin units)) L.filters

/-- `tf.layers.dense(units, n_tags, activation=None)` at one token position. -/
def dense (D : DenseLayer) (nTags : ℕ) (v : List ℝ) : List ℝ :=
  (List.range nTags).map (fun j =>
    D.bias.getD j 0 +
      (List.zipWith (fun xc wrow => xc * wrow.getD j 0) v D.weight).sum)

/-- `tf.nn.embedding_lookup(emb_mat, indices)` for a `[N, T]` index batch. -/
def get_embeddings (emb_mat : List (List ℝ)) (indices : List (List ℕ)) :
    List (List (List ℝ)) :=
  indices.map (fun row => row.map (fun i => emb_mat.getD i []))

/-! ### Dropout

`tf.nn.dropout(x, keep_prob, noise_shape)` draws, per noise-shape cell, a
uniform sample `u ∈ [0, 1)` and keeps (scaling by `1/keep_prob`) exactly when
`keep_prob + u ≥ 1`.  The notebook uses `noise_shape = (N, 1, C)`, so one
sample per (example, channel) pair, broadcast over token positions. -/

/-- One unit of `tf.nn.dropout`: keep and rescale iff `1 - keep ≤ u`. -/
noncomputable def dropoutUnit (keep u x : ℝ) : ℝ :=
  if 1 - keep ≤ u then x / keep else 0

/-- The multiplier dropout applies to a unit whose uniform sample is `u`. -/
noncomputable def dropoutScale (keep u : ℝ) : ℝ :=
  if 1 - keep ≤ u then 1 / keep else 0

/-- `List.map` with the element index, starting at `n`. -/
def mapIdxFrom (f : ℕ → α → β) : ℕ → List α → List β
  | _, [] => []
  | n, a :: l => f n a :: mapIdxFrom f (n + 1) l

/-- `tf.nn.dropout(x, keep_prob, (N, 1, C))` on a `[N, T, C]` tensor:
`noise n c` is the uniform sample for example `n`, channel `c`, shared by all
token positions of that example. -/
noncomputable def dropoutPerExample (keep : ℝ) (noise : ℕ → ℕ → ℝ)
    (x : List (List (List ℝ))) : List (List (List ℝ)) :=
  mapIdxFrom (fun n ex => ex.map (fun tokvec =>
    mapIdxFrom (fun c v => dropoutUnit keep (noise n c) v) 0 tokvec)) 0 x

/-! ### The `NerNetwork` graph -/

/-- The trainable weights of `NerNetwork`. -/
structure NerParams where
  emb_mat : List (List ℝ)
  conv_layers : List Conv1DLayer
  top : DenseLayer

/-- The logits tensor of `NerNetwork.__init__`:
embedding lookup → dropout (noise shape `(N, 1, C)`) → `conv_net` →
dropout (noise shape `(N, 1, C)`) → `tf.layers.dense(units, n_tags,
activation=None)`.  `keep` is the value fed to `dropout_keep_ph`. -/
noncomputable def nerLogits (p : NerParams) (nTags k embDim : ℕ) (keep : ℝ)
    (noise1 noise2 : ℕ → ℕ → ℝ) (tok : List (List ℕ)) :
    List (List (List ℝ)) :=
  (dropoutPerExample keep noise2
    ((dropoutPerExample keep noise1 (get_embeddings p.emb_mat tok)).map
      (fun ex => conv_net p.conv_layers k ex embDim))).map
    (fun ex => ex.map (dense p.top nTags))

/-- The forward pass with both dropout layers removed. -/
noncomputable def nerLogitsNoDropout (p : NerParams) (nTags k embDim : ℕ)
    (tok : List (List ℕ)) : List (List (List ℝ)) :=
  (get_embeddings p.emb_mat tok).map (fun ex =>
    (conv_net p.conv_layers k ex embDim).map (dense p.top nTags))

/-- Index of the first maximal entry, `tf.argmax` on one logit vector
(auxiliary recursion over the remaining entries). -/
noncomputable def argmaxAux : ℕ → ℕ → ℝ → List ℝ → ℕ
  | _, best, _, [] => best
  | i, best, bestv, x :: xs =>
      if bestv < x then argmaxAux (i + 1) i x xs
      else argmaxAux (i + 1) best bestv xs

/-- `tf.argmax(logits, 2)`: per token position, the index of the largest
logit. -/
noncomputable def argmaxLast (logits : List (List (List ℝ))) :
    List (List ℕ) :=
  logits.map (fun ex => ex.map (fun v =>
    match v with
    | [] => 0
    | x :: xs => argmaxAux 1 0 x xs))

/-- `NerNetwork.__call__(tok_batch, mask_batch)`: feeds
`dropout_keep_ph: 1.0` and runs `self.predictions = tf.argmax(logits, 2)`.
The fed `mask_batch` goes to `mask_ph`, which `predictions` does not read. -/
noncomputable def nerPredict (p : NerParams) (nTags k embDim : ℕ)
    (noise1 noise2 : ℕ → ℕ → ℝ) (tok : List (List ℕ))
    (mask : List (List ℝ)) : List (List ℕ) :=
  argmaxLast (nerLogits p nTags k embDim 1 noise1 noise2 tok)

/-- The loss node of `NerNetwork.__init__`:
`self.loss = masked_cross_entropy(logits, self.token_ph, n_tags, self.mask_ph)`.
Note the second argument of the source call is `self.token_ph` — the token-id
batch — not `self.y_ph`.  `tag` is the value `train_on_batch` feeds to
`y_ph`; no node of the loss graph reads `y_ph`, so `tag` does not occur in
the body. -/
noncomputable def nerLoss (p : NerParams) (nTags k embDim : ℕ) (keep : ℝ)
    (noise1 noise2 : ℕ → ℕ → ℝ) (tok tag : List (List ℕ))
    (mask : List (List ℝ)) : ℝ :=
  masked_cross_entropy (nerLogits p nTags k embDim keep noise1 noise2 tok)
    tok nTags mask

/-- `tf.train.AdamOptimizer()` is constructed with no arguments in
`NerNetwork.__init__`, so it uses the library default `learning_rate=0.001`;
`self.learning_rate_ph` is not passed to it (nor to any other graph node). -/
noncomputable def adamDefaultLearningRate : ℝ := 1 / 1000

/-- `NerNetwork.train_on_batch(tok, tag, mask, dropout_keep_prob,
learning_rate)`: runs `self.train_op = opt.minimize(self.loss)` under the
feeds.  `adamStep lr f w` abstracts one optimizer step at learning rate `lr`
on objective `f` from weights `w`; the graph's optimizer was built by
`tf.train.AdamOptimizer()`, so the step runs at `adamDefaultLearningRate`,
and the fed `lrFeed` (bound to the unread `learning_rate_ph`) does not occur
in the body. -/
noncomputable def nerTrainOnBatch
    (adamStep : ℝ → (NerParams → ℝ) → NerParams → NerParams)
    (w : NerParams) (nTags k embDim : ℕ) (noise1 noise2 : ℕ → ℕ → ℝ)
    (tok tag : List (List ℕ)) (mask : List (List ℝ))
    (keep lrFeed : ℝ) : NerParams :=
  adamStep adamDefaultLearningRate
    (fun p => nerLoss p nTags k embDim keep noise1 noise2 tok tag mask) w

/-! ### Shapes of the forward pass (C5) -/

/-- The `[N, T, ·]` shape profile of a rank-3 tensor: the list of channel
lengths at every (example, token) cell. -/
def shape3 (x : List (List (List ℝ))) : List (List ℕ) :=
  x.map (fun ex => ex.map List.length)

/-- A noise field of all zeros (every uniform sample equal to `0`). -/
def zeroNoise : ℕ → ℕ → ℝ := fun _ _ => 0

/-- A tiny concrete weight setting: a 1-dimensional embedding of one token,
no convolution layers, and a dense projection to two tags. -/
def testParams : NerParams :=
  ⟨[[1]], [], ⟨[[0, 1]], [0, 0]⟩⟩

/-! ### The batch mask (C7) -/

/-- Modelled from the spec: `deeppavlov.models.preprocessors.mask.Mask`,
which the notebook imports and names `get_mask`; its source is not in the
repository.  Per the spec's padding/masking contract, for a batch of
variable-length rows it returns a `[N, max_len]` float matrix holding `1.0`
at the real positions (`j < length_i`) and `0.0` at the padded ones. -/
def get_mask {α : Type} (batch : List (List α)) : List (List ℝ) :=
  batch.map (fun row =>
    (List.range ((batch.map List.length).foldr max 0)).map
      (fun j => if j < row.length then 1 else 0))

/-- A concrete two-row batch of lengths 5 and 2. -/
def maskTestBatch : List (List ℕ) := [[9, 9, 9, 9, 9], [7, 7]]

/-! ### The evaluator `eval_valid` (C6)

`eval_valid(network, batch_generator)` is generic glue: the token/tag
vocabularies, the network and `precision_recall_f1` enter only through their
call interfaces, so they are parameters here.  `Token` and `Tag` stand for
the string types of tokens and tags, `Metric` for the result of
`precision_recall_f1`. -/

/-- Modelled from the spec: `deeppavlov.core.data.utils.zero_pad`, which the
notebook imports; its source is not in the repository.  Per the spec's
padding contract it right-pads every row with the filler id `0` to the
maximum length in the batch. -/
def zero_pad (batch : List (List ℕ)) : List (List ℕ) :=
  batch.map (fun row =>
    row ++ List.replicate ((batch.map List.length).foldr max 0 - row.length) 0)

/-- The truncation step of `eval_valid`:
`y_inds = [y_[:len(x_)] for x_, y_ in zip(*[x, y_inds])]`. -/
def truncPreds {Token : Type} (x : List (List Token)) (y : List (List ℕ)) :
    List (List ℕ) :=
  List.zipWith (fun x_ y_ => y_.take x_.length) x y

/-- One batch inside `eval_valid`: encode the token batch, zero-pad, build
the mask, run the network, and truncate each predicted row to the true
length of its sentence. -/
def eval_valid_pred {Token : Type}
    (token_vocab : List (List Token) → List (List ℕ))
    (network : List (List ℕ) → List (List ℝ) → List (List ℕ))
    (x : List (List Token)) : List (List ℕ) :=
  truncPreds x (network (zero_pad (token_vocab x)) (get_mask x))

/-- The `(total_true, total_pred)` lists `eval_valid` accumulates over the
whole split: for every batch, `total_true.extend(chain(*y_true))` and
`total_pred.extend(chain(*y_pred))` with `y_pred = tag_vocab(y_inds)`. -/
def eval_valid_totals {Token Tag : Type}
    (token_vocab : List (List Token) → List (List ℕ))
    (tag_vocab : List (List ℕ) → List (List Tag))
    (network : List (List ℕ) → List (List ℝ) → List (List ℕ))
    (batches : List (List (List Token) × List (List Tag))) :
    List Tag × List Tag :=
  batches.foldl (fun acc xy =>
    (acc.1 ++ xy.2.flatten,
     acc.2 ++ (tag_vocab (eval_valid_pred token_vocab network xy.1)).flatten))
    ([], [])

/-- The notebook's `eval_valid(network, batch_generator)`: accumulate the
true and predicted tag sequences over all batches, then call
`precision_recall_f1(total_true, total_pred)` once on the totals. -/
def eval_valid {Token Tag Metric : Type}
    (prf1 : List Tag → List Tag → Metric)
    (token_vocab : List (List Token) → List (List ℕ))
    (tag_vocab : List (List ℕ) → List (List Tag))
    (network : List (List ℕ) → List (List ℝ) → List (List ℕ))
    (batches : List (List (List Token) × List (List Tag))) : Metric :=
  prf1 (eval_valid_totals token_vocab tag_vocab network batches).1
    (eval_valid_totals token_vocab tag_vocab network batches).2

/-- Two constant networks that agree at the real positions of the test batch
(the first two entries of row 1, the first entry of row 2) and differ at a
padded position. -/
def testNet1 : List (List ℕ) → List (List ℝ) → List (List ℕ) :=
  fun _ _ => [[1, 2], [3, 0]]

/-- See `testNet1`; this one predicts tag `7` at the padded position. -/
def testNet2 : List (List ℕ) → List (List ℝ) → List (List ℕ) :=
  fun _ _ => [[1, 2], [3, 7]]

/-- One batch of two token rows (lengths 2 and 1) with their true tag rows. -/
def testBatches : List (List (List ℕ) × List (List ℕ)) :=
  [([[10, 20], [30]], [[5, 6], [7]])]

lemma zipWith_mul_replicate_zero_sum (row : List ℝ) :
    ∀ T : ℕ, (List.zipWith (· * ·) row (List.replicate T (0 : ℝ))).sum = 0 := by
  induction row with
  | nil => intro T; simp
  | cons a tl ih =>
      intro T
      cases T with
      | zero => simp
      | succ T => simp [List.replicate_succ, ih T]

lemma matSum_hadamard_zeros (A : List (List ℝ)) :
    ∀ N T : ℕ, matSum (hadamard A (zerosMat N T)) = 0 := by
  induction A with
  | nil => intro N T; simp [hadamard, matSum]
  | cons r rs ih =>
      intro N T
      cases N with
      | zero => simp [hadamard, matSum, zerosMat]
      | succ N =>
          have h := ih N T
          simp [hadamard, matSum, zerosMat, List.replicate_succ,
            zipWith_mul_replicate_zero_sum] at *
          simpa [hadamard, matSum, zerosMat] using h

/-- C9: masking with an all-zeros mask zeroes every entry of the loss tensor,
so the mean is `0` whatever the logits and labels are. -/
theorem masked_cross_entropy_zero_mask (logits : List (List (List ℝ)))
    (labels : List (List ℕ)) (nTags N T : ℕ) :
    masked_cross_entropy logits labels nTags (zerosMat N T) = 0 := by
  unfold masked_cross_entropy reduceMean
  rw [matSum_hadamard_zeros]
  exact zero_div _

lemma zipWith_mul_ones (row m : List ℝ) (hlen : m.length = row.length)
    (hones : ∀ x ∈ m, x = (1 : ℝ)) :
    List.zipWith (· * ·) row m = row := by
  induction row generalizing m with
  | nil => simp
  | cons a tl ih =>
      cases m with
      | nil => simp at hlen
      | cons b bm =>
          have hb : b = 1 := hones b (by simp)
          have hrest : ∀ x ∈ bm, x = (1 : ℝ) := fun x hx => hones x (by simp [hx])
          simp only [List.zipWith_cons_cons, hb, mul_one]
          exact congrArg (a :: ·) (ih bm (by simpa using hlen) hrest)

lemma hadamard_ones (A mask : List (List ℝ))
    (hshape : List.Forall₂ (fun (mrow : List ℝ) (arow : List ℝ) =>
      mrow.length = arow.length) mask A)
    (hones : ∀ row ∈ mask, ∀ x ∈ row, x = (1 : ℝ)) :
    hadamard A mask = A := by
  induction A generalizing mask with
  | nil =>
      cases hshape
      simp [hadamard]
  | cons arow arest ih =>
      cases hshape with
      | cons h htl =>
          rename_i mrow mrest
          have h1 : ∀ x ∈ mrow, x = (1 : ℝ) := hones mrow (by simp)
          have h2 : ∀ row ∈ mrest, ∀ x ∈ row, x = (1 : ℝ) :=
            fun row hr => hones row (by simp [hr])
          simp only [hadamard, List.zipWith_cons_cons]
          exact congrArg₂ (· :: ·) (zipWith_mul_ones arow mrow h h1)
            (by simpa [hadamard] using ih mrest htl h2)

/-- C4: with a mask that is all ones (and of the shape of the loss tensor),
`masked_cross_entropy` is exactly the `tf.reduce_mean` of the unmasked
per-token cross-entropy tensor, i.e. the mean over ALL `N*T` entries. -/
theorem masked_cross_entropy_ones_mask (logits : List (List (List ℝ)))
    (labels : List (List ℕ)) (nTags : ℕ) (mask : List (List ℝ))
    (hshape : List.Forall₂ (fun (mrow : List ℝ) (crow : List ℝ) =>
      mrow.length = crow.length) mask (ceTensor logits labels nTags))
    (hones : ∀ row ∈ mask, ∀ x ∈ row, x = (1 : ℝ)) :
    masked_cross_entropy logits labels nTags mask
      = reduceMean (ceTensor logits labels nTags) := by
  unfold masked_cross_entropy
  rw [hadamard_ones _ _ hshape hones]

/-- Witness for C4 at a concrete batch: one sentence of two tokens, two tags,
mask `[[1, 1]]`. -/
theorem masked_cross_entropy_ones_mask_witness :
    (∀ row ∈ [[(1 : ℝ), 1]], ∀ x ∈ row, x = (1 : ℝ)) ∧
    masked_cross_entropy [[[1, 2], [0, 1]]] [[0, 1]] 2 [[1, 1]]
      = reduceMean (ceTensor [[[1, 2], [0, 1]]] [[0, 1]] 2) :=
  ⟨by simp,
    masked_cross_entropy_ones_mask [[[1, 2], [0, 1]]] [[0, 1]] 2 [[1, 1]]
      (by simp [ceTensor, ceRow, List.forall₂_cons]) (by simp)⟩

lemma length_mapIdxFrom (f : ℕ → α → β) :
    ∀ (n : ℕ) (l : List α), (mapIdxFrom f n l).length = l.length := by
  intro n l
  induction l generalizing n with
  | nil => rfl
  | cons a tl ih => simp [mapIdxFrom, ih]

lemma dense_length (D : DenseLayer) (nTags : ℕ) (v : List ℝ) :
    (dense D nTags v).length = nTags := by
  simp [dense]

lemma conv_net_length :
    ∀ (layers : List Conv1DLayer) (k : ℕ) (x : List (List ℝ)) (cin : ℕ),
      (conv_net layers k x cin).length = x.length := by
  intro layers
  induction layers with
  | nil => intro k x cin; rfl
  | cons L rest ih =>
      intro k x cin
      show (conv_net rest k (reluSeq (conv1dSame L k cin x)) L.filters).length
        = x.length
      rw [ih]
      simp [reluSeq, conv1dSame]

lemma map_length_mapIdxFrom {f : ℕ → List α → List β}
    (hf : ∀ n a, (f n a).length = a.length) :
    ∀ (n0 : ℕ) (l : List (List α)),
      (mapIdxFrom f n0 l).map List.length = l.map List.length := by
  intro n0 l
  induction l generalizing n0 with
  | nil => rfl
  | cons a tl ih => simp [mapIdxFrom, hf, ih]

lemma get_embeddings_outer_length (m : List (List ℝ)) (tok : List (List ℕ)) :
    (get_embeddings m tok).map List.length = tok.map List.length := by
  simp [get_embeddings, List.map_map, Function.comp]

lemma dropout_outer_length (keep : ℝ) (noise : ℕ → ℕ → ℝ)
    (x : List (List (List ℝ))) :
    (dropoutPerExample keep noise x).map List.length = x.map List.length :=
  map_length_mapIdxFrom (fun n a => by simp) 0 x

lemma conv_stage_outer_length (layers : List Conv1DLayer) (k embDim : ℕ)
    (y : List (List (List ℝ))) :
    (y.map (fun ex => conv_net layers k ex embDim)).map List.length
      = y.map List.length := by
  simp [List.map_map, Function.comp, conv_net_length]

lemma map_constmap_eq_of_map_length {α β : Type} (c : ℕ) :
    ∀ (y : List (List α)) (z : List (List β)),
      y.map List.length = z.map List.length →
      y.map (fun ex => ex.map (fun _ => c)) = z.map (fun row => row.map (fun _ => c)) := by
  intro y
  induction y with
  | nil =>
      intro z h
      cases z with
      | nil => rfl
      | cons _ _ => simp at h
  | cons ex ytl ih =>
      intro z h
      cases z with
      | nil => simp at h
      | cons row ztl =>
          simp only [List.map_cons, List.cons.injEq] at h ⊢
          exact ⟨by simp [List.map_const', h.1], ih ztl h.2⟩

/-- C5: for every weight setting, every dropout draw and every token-id batch
`tok` of shape `[N, T]`, the logits of the forward pass have shape
`[N, T, n_tags]` (the shape profile is that of `tok` with every cell holding
a length-`n_tags` vector); moreover `conv_net` — each of its layers a
`'same'`-padded 1-D convolution followed by a rectified-linear activation —
preserves the token-axis length of any input. -/
theorem nerLogits_shape (p : NerParams) (nTags k embDim : ℕ) (keep : ℝ)
    (noise1 noise2 : ℕ → ℕ → ℝ) (tok : List (List ℕ)) :
    shape3 (nerLogits p nTags k embDim keep noise1 noise2 tok)
      = tok.map (fun row => row.map (fun _ => nTags))
    ∧ ∀ (layers : List Conv1DLayer) (kw : ℕ) (x : List (List ℝ)) (cin : ℕ),
        (conv_net layers kw x cin).length = x.length := by
  refine ⟨?_, fun layers kw x cin => conv_net_length layers kw x cin⟩
  have houter :
      (dropoutPerExample keep noise2
        ((dropoutPerExample keep noise1 (get_embeddings p.emb_mat tok)).map
          (fun ex => conv_net p.conv_layers k ex embDim))).map List.length
        = tok.map List.length := by
    rw [dropout_outer_length, conv_stage_outer_length, dropout_outer_length,
      get_embeddings_outer_length]
  have hA :
      shape3 (nerLogits p nTags k embDim keep noise1 noise2 tok)
        = (dropoutPerExample keep noise2
            ((dropoutPerExample keep noise1 (get_embeddings p.emb_mat tok)).map
              (fun ex => conv_net p.conv_layers k ex embDim))).map
            (fun ex => ex.map (fun _ => nTags)) := by
    simp [nerLogits, shape3, List.map_map, Function.comp_def, dense_length,
      List.map_const']
  rw [hA]
  exact map_constmap_eq_of_map_length nTags _ tok houter

/-! ### Dropout facts (C8) -/

lemma dropoutUnit_one (u x : ℝ) (hu : 0 ≤ u) : dropoutUnit 1 u x = x := by
  simp [dropoutUnit, hu]

lemma mapIdxFrom_congr_id (f : ℕ → α → α) (h : ∀ n a, f n a = a) :
    ∀ (n0 : ℕ) (l : List α), mapIdxFrom f n0 l = l := by
  intro n0 l
  induction l generalizing n0 with
  | nil => rfl
  | cons a tl ih => simp [mapIdxFrom, h, ih]

lemma dropout_one (noise : ℕ → ℕ → ℝ) (h : ∀ n c, 0 ≤ noise n c)
    (x : List (List (List ℝ))) : dropoutPerExample 1 noise x = x := by
  unfold dropoutPerExample
  refine mapIdxFrom_congr_id _ (fun n ex => ?_) 0 x
  have hin : ∀ tv : List ℝ,
      mapIdxFrom (fun c v => dropoutUnit 1 (noise n c) v) 0 tv = tv :=
    fun tv => mapIdxFrom_congr_id _ (fun c v => dropoutUnit_one _ v (h n c)) 0 tv
  rw [show (fun tv : List ℝ =>
      mapIdxFrom (fun c v => dropoutUnit 1 (noise n c) v) 0 tv) = id
    from funext hin, List.map_id]

lemma getD_mapIdxFrom {f : ℕ → α → β} {d : α} {d' : β} (hd : ∀ n, f n d = d') :
    ∀ (n0 : ℕ) (l : List α) (i : ℕ),
      (mapIdxFrom f n0 l).getD i d' = f (n0 + i) (l.getD i d) := by
  intro n0 l
  induction l generalizing n0 with
  | nil =>
      intro i
      simp [mapIdxFrom, hd]
  | cons a tl ih =>
      intro i
      cases i with
      | zero => simp [mapIdxFrom]
      | succ i =>
          have h := ih (n0 + 1) i
          rw [show n0 + 1 + i = n0 + (i + 1) by omega] at h
          simpa [mapIdxFrom, List.getD_cons_succ] using h

lemma getD_map_of {f : α → β} {d : α} {d' : β} (hd : f d = d') :
    ∀ (l : List α) (i : ℕ), (l.map f).getD i d' = f (l.getD i d) := by
  intro l
  induction l with
  | nil => intro i; simp [hd]
  | cons a tl ih =>
      intro i
      cases i with
      | zero => simp
      | succ i => simpa using ih i

lemma dropoutUnit_eq_scale_mul (keep u x : ℝ) :
    dropoutUnit keep u x = dropoutScale keep u * x := by
  unfold dropoutUnit dropoutScale
  split
  · rw [div_eq_mul_inv, one_div, mul_comm]
  · rw [zero_mul]

/-- C8: (1) the prediction entry point `NerNetwork.__call__` feeds
`dropout_keep_ph: 1.0`, under which every dropout draw with samples in
`[0, 1)` is the identity, so its output is the argmax of the forward pass
with dropout disabled — deterministic in the weights, whatever the dropout
random state; (2) dropout multiplies the entry at (example `n`, token `t`,
channel `c`) by a factor depending only on `n` and `c` and the caller's keep
probability — one mask per example, broadcast over token positions,
preserving the channel dimension. -/
theorem nerPredict_deterministic (p : NerParams) (nTags k embDim : ℕ)
    (noise1 noise2 : ℕ → ℕ → ℝ) (tok : List (List ℕ)) (mask : List (List ℝ))
    (h1 : ∀ n c, 0 ≤ noise1 n c) (h2 : ∀ n c, 0 ≤ noise2 n c) :
    nerPredict p nTags k embDim noise1 noise2 tok mask
      = argmaxLast (nerLogitsNoDropout p nTags k embDim tok)
    ∧ ∀ (keep : ℝ) (noise : ℕ → ℕ → ℝ) (x : List (List (List ℝ)))
        (n t c : ℕ),
        (((dropoutPerExample keep noise x).getD n []).getD t []).getD c 0
          = dropoutScale keep (noise n c)
              * (((x.getD n []).getD t []).getD c 0) := by
  constructor
  · unfold nerPredict nerLogits nerLogitsNoDropout
    rw [dropout_one noise1 h1, dropout_one noise2 h2]
    simp [List.map_map, Function.comp_def]
  · intro keep noise x n t c
    unfold dropoutPerExample
    rw [getD_mapIdxFrom (d := ([] : List (List ℝ))) (fun m => by simp) 0 x n]
    rw [getD_map_of (d := ([] : List ℝ)) (by simp [mapIdxFrom])]
    rw [getD_mapIdxFrom (d := (0 : ℝ))
      (fun m => by simp [dropoutUnit, zero_div]) 0 _ c]
    rw [Nat.zero_add, Nat.zero_add, dropoutUnit_eq_scale_mul]

/-- Witness for C8 at a concrete input: one sentence of one token, all-zero
dropout samples. -/
theorem nerPredict_deterministic_witness :
    nerPredict testParams 2 1 1 zeroNoise zeroNoise [[0]] [[1]]
      = argmaxLast (nerLogitsNoDropout testParams 2 1 1 [[0]]) :=
  (nerPredict_deterministic testParams 2 1 1 zeroNoise zeroNoise [[0]] [[1]]
    (fun _ _ => le_refl 0) (fun _ _ => le_refl 0)).1

/-! ### What the training step reads from its feeds (C1, C2, C10) -/

/-- C10: the tag batch fed to `y_ph` by `train_on_batch` has no influence on
the weight update: with identical weights, token batch, mask, keep
probability, learning-rate feed, dropout random state and optimizer
semantics, any two tag batches produce identical resulting weights, because
the loss graph never reads `y_ph`. -/
theorem train_on_batch_ignores_tag_batch
    (adamStep : ℝ → (NerParams → ℝ) → NerParams → NerParams)
    (w : NerParams) (nTags k embDim : ℕ) (noise1 noise2 : ℕ → ℕ → ℝ)
    (tok : List (List ℕ)) (mask : List (List ℝ)) (keep lr : ℝ)
    (tag tag' : List (List ℕ)) :
    nerTrainOnBatch adamStep w nTags k embDim noise1 noise2 tok tag mask keep lr
      = nerTrainOnBatch adamStep w nTags k embDim noise1 noise2 tok tag' mask
          keep lr := rfl

/-- C2 (recording the code bug): the `learning_rate` argument of
`train_on_batch` has no influence on the weight update — two arbitrary
learning-rate feeds yield identical resulting weights for every optimizer
semantics, because the optimizer was built by `tf.train.AdamOptimizer()`
with its hidden default rate `0.001` and `learning_rate_ph` is never read. -/
theorem train_on_batch_ignores_learning_rate
    (adamStep : ℝ → (NerParams → ℝ) → NerParams → NerParams)
    (w : NerParams) (nTags k embDim : ℕ) (noise1 noise2 : ℕ → ℕ → ℝ)
    (tok tag : List (List ℕ)) (mask : List (List ℝ)) (keep : ℝ)
    (lr lr' : ℝ) :
    nerTrainOnBatch adamStep w nTags k embDim noise1 noise2 tok tag mask keep lr
      = nerTrainOnBatch adamStep w nTags k embDim noise1 noise2 tok tag mask
          keep lr'
    ∧ adamDefaultLearningRate = 1 / 1000 := ⟨rfl, rfl⟩

/-- C3 (recording the code bug): `get_embeddings` passes
`stddev = 1.0 / emb_dim` to `tf.random_normal`; at the notebook's default
`emb_dim = 100` that standard deviation is `1/100`, whose square — the
variance — is `1/10000 ≠ 1/100`, and it differs from the
`sqrt(1/emb_dim) = 1/10` the in-code comment (variance `1/emb_dim`)
demands. -/
theorem get_embeddings_stddev_bug :
    get_embeddings_init_stddev 100 = 1 / 100
    ∧ get_embeddings_init_stddev 100 ^ 2 ≠ (1 : ℝ) / 100
    ∧ get_embeddings_init_stddev 100 ≠ Real.sqrt (1 / 100) := by
  refine ⟨rfl, ?_, ?_⟩
  · norm_num [get_embeddings_init_stddev]
  · have h10 : Real.sqrt (1 / 100) = 1 / 10 := by
      rw [show (1 / 100 : ℝ) = (1 / 10) ^ 2 by norm_num]
      exact Real.sqrt_sq (by norm_num)
    rw [h10]
    norm_num [get_embeddings_init_stddev]

/-- C1 (recording the code bug): the loss node built by
`NerNetwork.__init__` is the masked cross-entropy of the logits against the
TOKEN-id batch (`self.token_ph`), not against the tag-id batch fed to
`y_ph`.  At a concrete batch — one sentence `[[0]]`, tag batch `[[1]]`, mask
`[[1]]`, weights `testParams`, keep probability 1 — the loss the graph
minimizes equals the cross-entropy against the token ids and differs from
the cross-entropy against the supplied tag ids. -/
theorem nerLoss_reads_token_ids_not_tags :
    nerLoss testParams 2 1 1 1 zeroNoise zeroNoise [[0]] [[1]] [[1]]
      = masked_cross_entropy
          (nerLogits testParams 2 1 1 1 zeroNoise zeroNoise [[0]]) [[0]] 2 [[1]]
    ∧ nerLoss testParams 2 1 1 1 zeroNoise zeroNoise [[0]] [[1]] [[1]]
      ≠ masked_cross_entropy
          (nerLogits testParams 2 1 1 1 zeroNoise zeroNoise [[0]]) [[1]] 2
          [[1]] := by
  have hlog : nerLogits testParams 2 1 1 1 zeroNoise zeroNoise [[0]]
      = [[[0, 1]]] := by
    simp [nerLogits, testParams, zeroNoise, get_embeddings, dropoutPerExample,
      mapIdxFrom, dropoutUnit, conv_net, dense, List.range_succ]
  constructor
  · rfl
  · show masked_cross_entropy
        (nerLogits testParams 2 1 1 1 zeroNoise zeroNoise [[0]]) [[0]] 2 [[1]]
      ≠ masked_cross_entropy
        (nerLogits testParams 2 1 1 1 zeroNoise zeroNoise [[0]]) [[1]] 2 [[1]]
    rw [hlog]
    simp [masked_cross_entropy, ceTensor, ceRow, oneHot, softmaxCrossEntropy,
      hadamard, matSum, numEntries, reduceMean, List.range_succ]
    intro h
    linarith

lemma le_foldr_max (l : List ℕ) : ∀ x ∈ l, x ≤ l.foldr max 0 := by
  induction l with
  | nil => simp
  | cons a tl ih =>
      intro x hx
      rcases List.mem_cons.mp hx with h | h
      · subst h; exact le_max_left _ _
      · exact le_trans (ih x h) (le_max_right _ _)

lemma indicatorSum_all (L : ℕ) :
    ∀ M, M ≤ L →
      (((List.range M).map fun j => if j < L then (1 : ℝ) else 0).sum = M) := by
  intro M
  induction M with
  | zero => intro _; simp
  | succ M ih =>
      intro h
      rw [List.range_succ, List.map_append, List.sum_append]
      rw [ih (Nat.le_of_succ_le h)]
      have hlt : M < L := h
      simp [hlt]

lemma indicatorSum (L : ℕ) :
    ∀ M, L ≤ M →
      (((List.range M).map fun j => if j < L then (1 : ℝ) else 0).sum = L) := by
  intro M
  induction M with
  | zero =>
      intro h
      have : L = 0 := Nat.le_zero.mp h
      subst this
      simp
  | succ M ih =>
      intro h
      by_cases hLM : L ≤ M
      · rw [List.range_succ, List.map_append, List.sum_append, ih hLM]
        simp [Nat.not_lt.mpr hLM]
      · have hL : L = M + 1 := by omega
        subst hL
        rw [List.range_succ, List.map_append, List.sum_append,
          indicatorSum_all (M + 1) M (by omega)]
        simp [Nat.lt_succ_self]

/-- C7: for every batch and every row index `i` in range, the mask row for
row `i` holds `1` at position `j` exactly when `j < length_i`, and its sum
is the original length of row `i`. -/
theorem get_mask_spec {α : Type} (batch : List (List α)) (i j : ℕ)
    (hi : i < batch.length) :
    (((get_mask batch).getD i []).getD j 0 = 1
        ↔ j < (batch.getD i []).length)
    ∧ ((get_mask batch).getD i []).sum = ((batch.getD i []).length : ℝ) := by
  have hrow : (get_mask batch).getD i []
      = (List.range ((batch.map List.length).foldr max 0)).map
          (fun j => if j < (batch.getD i []).length then (1 : ℝ) else 0) := by
    have hi' : i < (get_mask batch).length := by simpa [get_mask] using hi
    rw [List.getD_eq_getElem _ _ hi', List.getD_eq_getElem _ _ hi]
    simp [get_mask]
  have hle : (batch.getD i []).length ≤ (batch.map List.length).foldr max 0 := by
    apply le_foldr_max
    rw [List.getD_eq_getElem _ _ hi]
    exact List.mem_map_of_mem _ (batch.getElem_mem hi)
  constructor
  · rw [hrow]
    by_cases hj : j < (batch.map List.length).foldr max 0
    · have hj' : j < ((List.range ((batch.map List.length).foldr max 0)).map
          (fun j => if j < (batch.getD i []).length then (1 : ℝ) else 0)).length := by
        simpa using hj
      rw [List.getD_eq_getElem _ _ hj']
      simp only [List.getElem_map, List.getElem_range]
      by_cases hjL : j < (batch.getD i []).length
      · simp [hjL]
      · simp [hjL]
    · rw [List.getD_eq_default _ _ (by simpa using Nat.not_lt.mp hj)]
      constructor
      · intro h01
        exact absurd h01 (by norm_num)
      · intro hjL
        omega
  · rw [hrow]
    exact indicatorSum _ _ hle

/-- Witness for C7 at row 1, position 2 of a batch with row lengths 5
and 2. -/
theorem get_mask_spec_witness :
    1 < maskTestBatch.length
    ∧ ((((get_mask maskTestBatch).getD 1 []).getD 2 0 = 1
          ↔ 2 < (maskTestBatch.getD 1 []).length)
        ∧ ((get_mask maskTestBatch).getD 1 []).sum
            = ((maskTestBatch.getD 1 []).length : ℝ)) :=
  ⟨by decide, get_mask_spec maskTestBatch 1 2 (by decide)⟩

lemma truncPreds_length_le {Token : Type} :
    ∀ (x : List (List Token)) (y : List (List ℕ)) (i : ℕ),
      ((truncPreds x y).getD i []).length ≤ (x.getD i []).length := by
  intro x
  induction x with
  | nil => intro y i; simp [truncPreds]
  | cons x_ xs ih =>
      intro y i
      cases y with
      | nil => simp [truncPreds]
      | cons y_ ys =>
          cases i with
          | zero => simp [truncPreds, List.length_take]
          | succ i => simpa [truncPreds] using ih ys i

lemma eval_valid_totals_append {Token Tag : Type}
    (token_vocab : List (List Token) → List (List ℕ))
    (tag_vocab : List (List ℕ) → List (List Tag))
    (network : List (List ℕ) → List (List ℝ) → List (List ℕ)) :
    ∀ (batches : List (List (List Token) × List (List Tag)))
      (a b : List Tag),
      batches.foldl (fun acc xy =>
        (acc.1 ++ xy.2.flatten,
         acc.2 ++ (tag_vocab (eval_valid_pred token_vocab network xy.1)).flatten))
        (a, b)
      = (a ++ (batches.map (fun xy => xy.2.flatten)).flatten,
         b ++ (batches.map (fun xy =>
           (tag_vocab (eval_valid_pred token_vocab network xy.1)).flatten)).flatten) := by
  intro batches
  induction batches with
  | nil => intro a b; simp
  | cons xy rest ih =>
      intro a b
      simp only [List.foldl_cons, List.map_cons, List.flatten_cons]
      rw [ih]
      simp [List.append_assoc]

/-- C6: (1) every predicted row that `eval_valid` passes on for decoding is
truncated to at most the true (unpadded) length of its sentence; (2) the
totals handed to `precision_recall_f1` are the concatenation, across the
whole split, of the flattened true tag rows and of the flattened decoded
truncated predicted rows; (3) consequently two networks that agree at the
real (non-padded) positions of every batch — however much they differ at
padded positions — yield the same metric result. -/
theorem eval_valid_ignores_padding {Token Tag Metric : Type}
    (prf1 : List Tag → List Tag → Metric)
    (token_vocab : List (List Token) → List (List ℕ))
    (tag_vocab : List (List ℕ) → List (List Tag))
    (net₁ net₂ : List (List ℕ) → List (List ℝ) → List (List ℕ))
    (batches : List (List (List Token) × List (List Tag)))
    (h : ∀ xy ∈ batches,
      eval_valid_pred token_vocab net₁ xy.1
        = eval_valid_pred token_vocab net₂ xy.1) :
    (∀ (tv : List (List Token) → List (List ℕ))
        (net : List (List ℕ) → List (List ℝ) → List (List ℕ))
        (x : List (List Token)) (i : ℕ),
        ((eval_valid_pred tv net x).getD i []).length ≤ (x.getD i []).length)
    ∧ (∀ bs : List (List (List Token) × List (List Tag)),
        eval_valid_totals token_vocab tag_vocab net₁ bs
          = ((bs.map (fun xy => xy.2.flatten)).flatten,
             (bs.map (fun xy =>
               (tag_vocab (eval_valid_pred token_vocab net₁ xy.1)).flatten)).flatten))
    ∧ eval_valid prf1 token_vocab tag_vocab net₁ batches
        = eval_valid prf1 token_vocab tag_vocab net₂ batches := by
  refine ⟨?_, ?_, ?_⟩
  · intro tv net x i
    exact truncPreds_length_le x _ i
  · intro bs
    simpa using eval_valid_totals_append token_vocab tag_vocab net₁ bs [] []
  · have htot : eval_valid_totals token_vocab tag_vocab net₁ batches
        = eval_valid_totals token_vocab tag_vocab net₂ batches := by
      unfold eval_valid_totals
      rw [eval_valid_totals_append, eval_valid_totals_append]
      have : batches.map (fun xy =>
            (tag_vocab (eval_valid_pred token_vocab net₁ xy.1)).flatten)
          = batches.map (fun xy =>
            (tag_vocab (eval_valid_pred token_vocab net₂ xy.1)).flatten) := by
        apply List.map_congr_left
        intro xy hxy
        rw [h xy hxy]
      rw [this]
    unfold eval_valid
    rw [htot]

/-- Witness for C6: the two test networks differ only at a padded position,
and the evaluator's output (here `precision_recall_f1 := Prod.mk`, i.e. the
raw totals) is identical for both. -/
theorem eval_valid_ignores_padding_witness :
    (∀ xy ∈ testBatches,
      eval_valid_pred id testNet1 xy.1 = eval_valid_pred id testNet2 xy.1)
    ∧ eval_valid Prod.mk id id testNet1 testBatches
        = eval_valid Prod.mk id id testNet2 testBatches :=
  ⟨by
    intro xy hxy
    simp only [testBatches, List.mem_singleton] at hxy
    subst hxy
    rfl,
   (eval_valid_ignores_padding Prod.mk id id testNet1 testNet2 testBatches
      (by
        intro xy hxy
        simp only [testBatches, List.mem_singleton] at hxy
        subst hxy
        rfl)).2.2⟩

end NerTutorial

